import Mathlib

/-!
Verification of the C-source analysis engine (c_code_parser.py,
c_static_analyzer.py, review_rule_engine.py) of the ai-coding-agent
repository.  Source text is modelled as `List Char`; Python floats are
modelled as rationals; Python dicts with optional keys are modelled as
structures with `Option` fields.  Python regular-expression scanning
(`re.finditer` / `re.search`) is modelled by an explicit backtracking
matcher specialised to the fixed patterns appearing in the source, with
greedy quantifiers enumerating candidate end positions longest-first and
the first complete candidate selected, exactly as the Python engine does.
-/

/-- Shorthand turning a string literal into the `List Char` it denotes. -/
def str (s : String) : List Char := s.data

/-- Python `\s` (ASCII fragment of `str.isspace`): the whitespace characters
blank, tab, newline, carriage return, vertical tab, form feed. -/
def pySpace (c : Char) : Bool :=
  c = ' ' || c = '\t' || c = '\n' || c = '\r' || c = '\x0b' || c = '\x0c'

/-- Python `\w` (ASCII fragment): letters, digits and underscore. -/
def pyWord (c : Char) : Bool :=
  (65 ≤ c.toNat && c.toNat ≤ 90) || (97 ≤ c.toNat && c.toNat ≤ 122) ||
  (48 ≤ c.toNat && c.toNat ≤ 57) || c = '_'

/-- Python `str.lower` on one character (ASCII case mapping; characters
outside A–Z, in particular the Japanese keyword characters appearing in the
source, are fixed points, as they are under Python's `lower`). -/
def pyLowerChar (c : Char) : Char :=
  if 65 ≤ c.toNat && c.toNat ≤ 90 then Char.ofNat (c.toNat + 32) else c

/-- Python `str.lower`. -/
def pyLower (s : List Char) : List Char := s.map pyLowerChar

/-- Python substring containment `t in s`. -/
def hasSub : List Char → List Char → Bool
  | [], t => t.isPrefixOf []
  | c :: rest, t => t.isPrefixOf (c :: rest) || hasSub rest t

/-- Scanning worker of `pyCount`; the fuel argument exceeds the subject
length at every call, so the zero-fuel case is never reached (it makes the
recursion structural and hence kernel-reducible). -/
def pyCountGo (t : List Char) : Nat → List Char → Nat
  | 0, _ => 0
  | _ + 1, [] => if t.isEmpty then 1 else 0
  | fuel + 1, c :: rest =>
    if t.isEmpty then 1 + pyCountGo t fuel rest
    else if t.isPrefixOf (c :: rest) then 1 + pyCountGo t fuel (List.drop (t.length - 1) rest)
    else pyCountGo t fuel rest

/-- Python `s.count(t)`: number of non-overlapping occurrences of `t` in
`s`, scanning left to right (for empty `t` Python returns `len(s) + 1`). -/
def pyCount (s t : List Char) : Nat := pyCountGo t (s.length + 1) s

/-- Python `s.strip()` (ASCII whitespace fragment). -/
def pyStrip (s : List Char) : List Char :=
  ((s.dropWhile pySpace).reverse.dropWhile pySpace).reverse

/-- Scanning worker of `pySplitWs`; as with `pyCountGo`, the fuel exceeds
the subject length at every call. -/
def pySplitWsGo : Nat → List Char → List (List Char)
  | 0, _ => []
  | _ + 1, [] => []
  | fuel + 1, c :: rest =>
    if pySpace c then pySplitWsGo fuel rest
    else (c :: rest.takeWhile (fun d => !pySpace d)) ::
      pySplitWsGo fuel (rest.dropWhile (fun d => !pySpace d))

/-- Python `s.split()` with no argument: split on whitespace runs,
dropping empty fragments. -/
def pySplitWs (s : List Char) : List (List Char) := pySplitWsGo (s.length + 1) s

/-- Python `s.split(sep)` for a one-character separator (keeps empty
fragments, like `List.splitOn`). -/
def pySplit (s : List Char) (sep : Char) : List (List Char) := s.splitOn sep

/-- Decimal rendering of a number, as Python's string formatting does. -/
def natStr (n : Nat) : List Char := (Nat.repr n).data

/-- The Python slice `s[a:b]`. -/
def pySlice (s : List Char) (a b : Nat) : List Char := (s.drop a).take (b - a)

/-! ### Backtracking regex matcher

A matcher takes the subject and a start offset and returns the list of
candidate end offsets in the preference order of Python's backtracking
engine (greedy quantifiers longest-first, alternatives left to right).
The first end offset for which the rest of the pattern also succeeds is
the one Python reports. -/

/-- A matcher: subject, start offset, candidate end offsets in preference
order. -/
abbrev Matcher := List Char → Nat → List Nat

/-- Literal text. -/
def litAt (t : List Char) : Matcher := fun s i =>
  if t.isPrefixOf (s.drop i) then [i + t.length] else []

/-- Length of the maximal run of characters satisfying `p` from offset `i`. -/
def runLen (p : Char → Bool) (s : List Char) (i : Nat) : Nat :=
  ((s.drop i).takeWhile p).length

/-- Greedy `p*` on a character class: ends `i + r, …, i` (longest first). -/
def starRun (p : Char → Bool) : Matcher := fun s i =>
  (List.range (runLen p s i + 1)).map (fun k => i + runLen p s i - k)

/-- Greedy `p+` on a character class: ends `i + r, …, i + 1` (longest
first); empty when no character matches. -/
def plusRun (p : Char → Bool) : Matcher := fun s i =>
  (List.range (runLen p s i)).map (fun k => i + runLen p s i - k)

/-- Sequencing of matchers (preference order of the left one dominates). -/
def seqM (a b : Matcher) : Matcher := fun s i => (a s i).flatMap (fun j => b s j)

/-- Ordered alternation. -/
def altM (a b : Matcher) : Matcher := fun s i => a s i ++ b s i

/-- Greedy star over a matcher, fuel-bounded; every iteration must consume
at least one character (true of every starred group in the source's
patterns, and Python's engine likewise refuses empty star iterations). -/
def starM : Nat → Matcher → Matcher
  | 0, _ => fun _ i => [i]
  | fuel + 1, m => fun s i =>
    (((m s i).filter (fun j => i < j)).flatMap (fun j => starM fuel m s j)) ++ [i]

/-! ### c_code_parser.py — CCodeParserTool -/

/-- Offsets of one match of the function-definition pattern
`((?:static\s+|inline\s+|extern\s+)*\w+(?:\s*\*\s*)*)\s+(\w+)\s*\([^)]*\)\s*{`:
match start, end of group 1 (return type), start and end of group 2
(function name), and overall match end. -/
structure FuncMatch where
  start : Nat
  g1e : Nat
  g2s : Nat
  g2e : Nat
  mend : Nat
deriving DecidableEq, Repr

/-- `(?:static\s+|inline\s+|extern\s+)` — one storage/qualifier keyword
followed by whitespace. -/
def kwB : Matcher :=
  altM (seqM (litAt (str "static")) (plusRun pySpace))
    (altM (seqM (litAt (str "inline")) (plusRun pySpace))
      (seqM (litAt (str "extern")) (plusRun pySpace)))

/-- `(?:\s*\*\s*)` — one pointer marker with surrounding whitespace. -/
def ptrB : Matcher :=
  seqM (starRun pySpace) (seqM (litAt (str "*")) (starRun pySpace))

/-- Group 1 of the function pattern:
`(?:static\s+|inline\s+|extern\s+)*\w+(?:\s*\*\s*)*`. -/
def g1M (fuel : Nat) : Matcher :=
  seqM (starM fuel kwB) (seqM (plusRun pyWord) (starM fuel ptrB))

/-- All candidate matches of the function pattern anchored at offset `i`,
in the Python engine's backtracking preference order. -/
def funcCandidates (s : List Char) (i : Nat) : List FuncMatch :=
  (g1M (s.length + 1) s i).flatMap fun j1 =>
  (plusRun pySpace s j1).flatMap fun j2 =>
  (plusRun pyWord s j2).flatMap fun j3 =>
  (starRun pySpace s j3).flatMap fun j4 =>
  (litAt (str "(") s j4).flatMap fun j5 =>
  (starRun (fun c => !(c = ')')) s j5).flatMap fun j6 =>
  (litAt (str ")") s j6).flatMap fun j7 =>
  (starRun pySpace s j7).flatMap fun j8 =>
  (litAt (str "\x7b") s j8).map fun j9 =>
  ⟨i, j1, j2, j3, j9⟩

/-- The match the Python engine reports at offset `i`, if any. -/
def tryFuncAt (s : List Char) (i : Nat) : Option FuncMatch :=
  (funcCandidates s i).head?

/-- `re.finditer` driver: scan offsets left to right, reporting the first
match at each position and resuming after its end (non-overlapping
matches). -/
def scanAllGo {α : Type} (try_ : List Char → Nat → Option α) (endOf : α → Nat)
    (s : List Char) : Nat → Nat → List α
  | 0, _ => []
  | fuel + 1, i =>
    if i ≤ s.length then
      match try_ s i with
      | some a => a :: scanAllGo try_ endOf s fuel (max (endOf a) (i + 1))
      | none => scanAllGo try_ endOf s fuel (i + 1)
    else []

/-- `re.finditer` over the whole subject. -/
def scanAll {α : Type} (try_ : List Char → Nat → Option α) (endOf : α → Nat)
    (s : List Char) : List α :=
  scanAllGo try_ endOf s (s.length + 1) 0

/-- The function-pattern matches of a file, in source order
(`re.finditer(func_pattern, content)`). -/
def funcMatches (content : List Char) : List FuncMatch :=
  scanAll tryFuncAt FuncMatch.mend content

/-- `_find_function_end`'s scan loop, returning `some (pos + 1)` when the
running brace count returns to zero after an opening brace was seen, and
`none` when the input is exhausted first.  The brace count is an integer:
a closing brace ahead of any opening brace drives it negative. -/
def ffeGo : List Char → Nat → Int → Bool → Option Nat
  | [], _, _, _ => none
  | c :: rest, pos, cnt, found =>
    if c = '{' then ffeGo rest (pos + 1) (cnt + 1) true
    else if c = '}' then
      if found && cnt - 1 = 0 then some (pos + 1)
      else ffeGo rest (pos + 1) (cnt - 1) found
    else ffeGo rest (pos + 1) cnt found

/-- `_find_function_end(content, start_pos)`: position one past the brace
closing the function body, or `len(content)` when the scan exhausts the
input. -/
def findFunctionEnd (content : List Char) (startPos : Nat) : Nat :=
  (ffeGo (content.drop startPos) startPos 0 false).getD content.length

/-- The per-function complexity dictionary built by
`_calculate_function_complexity`. -/
structure ComplexityInfo where
  cyclomatic_complexity : Nat
  line_count : Nat
  nesting_level : Int
  complexity_rating : List Char
deriving DecidableEq, Repr

/-- `_calculate_nesting_level`'s character scan: running depth (which may
go negative) and the maximum reached.  Python's `max_level` starts at 0. -/
def nestGo : List Char → Int → Int → Int
  | [], _, maxL => maxL
  | c :: rest, cur, maxL =>
    if c = '{' then nestGo rest (cur + 1) (max maxL (cur + 1))
    else if c = '}' then nestGo rest (cur - 1) maxL
    else nestGo rest cur maxL

/-- `_calculate_nesting_level(code)`. -/
def calcNestingLevel (code : List Char) : Int := nestGo code 0 0

/-- `_rate_complexity(cyclomatic, line_count, nesting)`. -/
def rateComplexity (cyclomatic : Nat) (lineCount : Nat) (nesting : Int) : List Char :=
  if 20 < cyclomatic || 100 < lineCount || 5 < nesting then str "very_high"
  else if 10 < cyclomatic || 50 < lineCount || 3 < nesting then str "high"
  else if 5 < cyclomatic || 25 < lineCount || 2 < nesting then str "medium"
  else str "low"

/-- `_calculate_function_complexity(func_body)`: cyclomatic complexity is
one plus the raw substring-occurrence counts of the decision keywords and
the logical operators over the body text. -/
def calcFunctionComplexity (body : List Char) : ComplexityInfo :=
  let decisionPoints :=
    pyCount body (str "if") + pyCount body (str "while") + pyCount body (str "for") +
    pyCount body (str "switch") + pyCount body (str "case") +
    pyCount body (str "&&") + pyCount body (str "||")
  let cyclomatic := decisionPoints + 1
  let lineCount := List.count '\n' body
  let nesting := calcNestingLevel body
  { cyclomatic_complexity := cyclomatic
    line_count := lineCount
    nesting_level := nesting
    complexity_rating := rateComplexity cyclomatic lineCount nesting }

/-- `re.search(r'\(([^)]*)\)', decl)`'s group 1: the text between the first
opening parenthesis that is followed by a closing one and the first
closing parenthesis after it (if the earliest `(` has no `)` after it, no
later one does either, so the search fails). -/
def searchParens : List Char → Option (List Char)
  | [] => none
  | c :: rest =>
    if c = '(' then
      let r := rest.takeWhile (fun d => !(d = ')'))
      if r.length < rest.length then some r else none
    else searchParens rest

/-- `_extract_parameters(func_declaration)`. -/
def extractParameters (decl : List Char) : List (List Char) :=
  match searchParens decl with
  | none => []
  | some ps =>
    let paramsStr := pyStrip ps
    if paramsStr.isEmpty || paramsStr = str "void" then []
    else (paramsStr.splitOn ',').map pyStrip

/-- `_analyze_function_issues(func_body)`. -/
def analyzeFunctionIssues (body : List Char) : List (List Char) :=
  (if 50 < List.count '\n' body then [str "関数が長すぎます（50行超）"] else []) ++
  (if 10 < (calcFunctionComplexity body).cyclomatic_complexity then
    [str "複雑度が高すぎます（サイクロマティック複雑度 > 10）"] else []) ++
  (if !hasSub body (str "return") && !hasSub body (str "void") then
    [str "戻り値が設定されていない可能性"] else [])

/-- The per-function dictionary built by `_extract_functions`. -/
structure FunctionRecord where
  name : List Char
  return_type : List Char
  start_line : Nat
  end_line : Nat
  line_count : Nat
  parameters : List (List Char)
  complexity : ComplexityInfo
  has_return : Bool
  malloc_count : Nat
  free_count : Nat
  potential_issues : List (List Char)
deriving DecidableEq, Repr

/-- The body text of a matched function:
`content[match.start() : _find_function_end(content, match.start())]`. -/
def funcBody (content : List Char) (m : FuncMatch) : List Char :=
  pySlice content m.start (findFunctionEnd content m.start)

/-- One `_extract_functions` loop iteration: the record built for match `m`. -/
def toFunctionRecord (content : List Char) (m : FuncMatch) : FunctionRecord :=
  let funcEnd := findFunctionEnd content m.start
  let body := pySlice content m.start funcEnd
  { name := pySlice content m.g2s m.g2e
    return_type := pyStrip (pySlice content m.start m.g1e)
    start_line := List.count '\n' (content.take m.start) + 1
    end_line := List.count '\n' (content.take funcEnd) + 1
    line_count := List.count '\n' body
    parameters := extractParameters (pySlice content m.start m.mend)
    complexity := calcFunctionComplexity body
    has_return := hasSub body (str "return")
    malloc_count := pyCount body (str "malloc")
    free_count := pyCount body (str "free")
    potential_issues := analyzeFunctionIssues body }

/-- `_extract_functions(content)`. -/
def extractFunctions (content : List Char) : List FunctionRecord :=
  (funcMatches content).map (toFunctionRecord content)

/-- The file-level complexity dictionary of `_calculate_file_complexity`;
`complex_functions` is `none` in the zero-function branch, whose dict
carries no such key. -/
structure FileComplexity where
  total_functions : Nat
  average_complexity : ℚ
  max_complexity : Nat
  complex_functions : Option Nat
deriving DecidableEq, Repr

/-- `_calculate_file_complexity(content)`. -/
def calcFileComplexity (content : List Char) : FileComplexity :=
  let functions := extractFunctions content
  if functions.isEmpty then
    { total_functions := 0, average_complexity := 0, max_complexity := 0,
      complex_functions := none }
  else
    let complexities : List Nat := functions.map (fun f => f.complexity.cyclomatic_complexity)
    { total_functions := functions.length
      average_complexity :=
        if complexities.isEmpty then 0
        else ((complexities.sum : Nat) : ℚ) / ((complexities.length : Nat) : ℚ)
      max_complexity := if complexities.isEmpty then 0 else complexities.foldl Nat.max 0
      complex_functions := some (complexities.filter (fun c => 10 < c)).length }

/-- Offsets of one match of the macro pattern
`#define\s+(\w+)(?:\([^)]*\))?\s+(.*)$` (compiled with `re.MULTILINE`):
match start, group-1 (name) start and end, end of the optional
parameter-parenthesis group when it matched, and group-2 (value) start
and end; the match end coincides with the value end since `$` is
zero-width. -/
structure MacroMatch where
  start : Nat
  nameS : Nat
  nameE : Nat
  parenE : Option Nat
  valS : Nat
  valE : Nat
deriving DecidableEq, Repr

/-- The optional group `(?:\([^)]*\))?` at offset `j`: candidate
(group-presence, end) pairs, the greedy present alternatives first and
the absent alternative last. -/
def macroParenOpt (s : List Char) (j : Nat) : List (Option Nat × Nat) :=
  (((litAt (str "(") s j).flatMap fun a =>
    (starRun (fun c => !(c = ')')) s a).flatMap fun b =>
    litAt (str ")") s b).map fun pe => (some pe, pe)) ++ [(none, j)]

/-- All candidate matches of the macro pattern anchored at offset `i`.
After the mandatory whitespace, `(.*)` greedily takes the maximal
newline-free run, at whose end `$` always holds under `re.MULTILINE`. -/
def macroCandidates (s : List Char) (i : Nat) : List MacroMatch :=
  (litAt (str "#define") s i).flatMap fun j1 =>
  (plusRun pySpace s j1).flatMap fun j2 =>
  (plusRun pyWord s j2).flatMap fun j3 =>
  (macroParenOpt s j3).flatMap fun pj =>
  (plusRun pySpace s pj.2).map fun j5 =>
  ⟨i, j2, j3, pj.1, j5, j5 + runLen (fun c => !(c = '\n')) s j5⟩

/-- The macro-pattern match the Python engine reports at offset `i`. -/
def tryMacroAt (s : List Char) (i : Nat) : Option MacroMatch :=
  (macroCandidates s i).head?

/-- The macro-pattern matches of a file, in source order. -/
def macroMatches (content : List Char) : List MacroMatch :=
  scanAll tryMacroAt MacroMatch.valE content

/-- The per-macro dictionary built by `_extract_macros`. -/
structure MacroRecord where
  name : List Char
  value : List Char
  line_number : Nat
  is_function_like : Bool
  complexity : List Char
deriving DecidableEq, Repr

/-- One `_extract_macros` loop iteration: the record built for match `m`;
`is_function_like` is `'(' in match.group(0)`. -/
def toMacroRecord (content : List Char) (m : MacroMatch) : MacroRecord :=
  let macroValue := pyStrip (pySlice content m.valS m.valE)
  { name := pySlice content m.nameS m.nameE
    value := macroValue
    line_number := List.count '\n' (content.take m.start) + 1
    is_function_like := (pySlice content m.start m.valE).contains '('
    complexity := if 50 < macroValue.length then str "high" else str "low" }

/-- `_extract_macros(content)`. -/
def extractMacros (content : List Char) : List MacroRecord :=
  (macroMatches content).map (toMacroRecord content)

/-! ### c_static_analyzer.py — CStaticAnalyzerTool, memory pass -/

/-- One issue dictionary emitted by the custom analysis passes; `line` and
`code_snippet` keys are present only on some issues. -/
structure AnalyzerIssue where
  tool : List Char
  category : List Char
  severity : List Char
  message : List Char
  suggestion : List Char
  line : Option Nat := none
  code_snippet : Option (List Char) := none
deriving DecidableEq, Repr

/-- The message of the allocation/free mismatch finding,
`f"malloc/calloc({m})とfree({f})の数が不一致"`. -/
def leakMessage (m f : Nat) : List Char :=
  str "malloc/calloc(" ++ natStr m ++ str ")とfree(" ++ natStr f ++ str ")の数が不一致"

/-- Does a line contain an allocation call (`'malloc(' in line or
'calloc(' in line`)? -/
def allocLine (line : List Char) : Bool :=
  hasSub line (str "malloc(") || hasSub line (str "calloc(")

/-- The null-check window of `_check_memory_patterns`: do the at most four
lines following line index `i` contain a null-sentinel token? -/
def windowHasNull (lines : List (List Char)) (i : Nat) : Bool :=
  ((lines.drop (i + 1)).take 4).any
    (fun l => hasSub l (str "NULL") || hasSub l (str "null"))

/-- The fixed message of the missing-null-check finding. -/
def nullCheckMessage : List Char := str "malloc/calloc後のNULLチェックがありません"

/-- `_check_memory_patterns(content, file_path)`: the leak finding (when
lines with allocation calls outnumber lines with free calls) followed by
one missing-null-check finding per allocation-assignment line with no
null token in the next four lines. -/
def checkMemoryPatterns (content _filePath : List Char) : List AnalyzerIssue :=
  let lines := content.splitOn '\n'
  let mallocLines := (lines.enum.filter (fun il => allocLine il.2)).map (fun il => il.1 + 1)
  let freeLines := (lines.enum.filter (fun il => hasSub il.2 (str "free("))).map (fun il => il.1 + 1)
  let leakIssues :=
    if freeLines.length < mallocLines.length then
      [{ tool := str "custom", category := str "memory", severity := str "medium",
         message := leakMessage mallocLines.length freeLines.length,
         suggestion := str "メモリリークの可能性があります。全てのmallocに対応するfreeを確認してください" : AnalyzerIssue }]
    else []
  let nullIssues := lines.enum.filterMap (fun il =>
    if allocLine il.2 && hasSub il.2 (str "=") && !windowHasNull lines il.1 then
      some { tool := str "custom", category := str "memory", severity := str "medium",
             line := some (il.1 + 1), message := nullCheckMessage,
             suggestion := str "メモリ割り当て失敗時の処理を追加してください",
             code_snippet := some (pyStrip il.2) : AnalyzerIssue }
    else none)
  leakIssues ++ nullIssues

/-! ### review_rule_engine.py — ReviewRuleEngineTool -/

/-- A configured rule.  `description` and `priority` are accessed by
direct indexing in `_evaluate_file` and so are required; `applicable_files`
is read with `rule.get("applicable_files", ["*"])` and so may be absent. -/
structure Rule where
  description : List Char
  priority : List Char
  applicable_files : Option (List (List Char)) := none
deriving DecidableEq, Repr

/-- A violation dictionary.  `line_number` is present only on some
violations; the `category` key is added by `_evaluate_file` after the
checker returns. -/
structure Violation where
  rule_description : List Char
  violation_type : List Char
  severity : List Char
  message : List Char
  suggestion : List Char
  detected_pattern : List Char
  line_number : Option Nat := none
  category : Option (List Char) := none
deriving DecidableEq, Repr

/-- The dangerous-function catalog of `_check_buffer_overflow`. -/
def bufCatalog : List (List Char) :=
  [str "strcpy", str "strcat", str "sprintf", str "gets"]

/-- The violation built by `_check_buffer_overflow` for function `f`. -/
def bufViolation (d f : List Char) : Violation :=
  { rule_description := d, violation_type := str "buffer_overflow",
    severity := str "high",
    message := str "危険な関数 " ++ f ++ str " の使用を検出しました",
    suggestion := f ++ str " の代わりに安全な関数を使用してください",
    detected_pattern := f }

/-- `_check_buffer_overflow(code, description)`: the first catalog entry
whose call pattern `func + '('` occurs in the code, if any. -/
def checkBufferOverflow (code d : List Char) : Option Violation :=
  (bufCatalog.find? (fun f => hasSub code (f ++ str "("))).map (bufViolation d)

/-- `_check_memory_leak(code, description)`. -/
def checkMemoryLeak (code d : List Char) : Option Violation :=
  let mallocCount := pyCount code (str "malloc") + pyCount code (str "calloc")
  let freeCount := pyCount code (str "free")
  if freeCount < mallocCount then
    some { rule_description := d, violation_type := str "memory_leak",
           severity := str "medium",
           message := leakMessage mallocCount freeCount,
           suggestion := str "全てのmalloc/callocに対応するfreeを確認してください",
           detected_pattern := str "malloc:" ++ natStr mallocCount ++ str ", free:" ++ natStr freeCount }
  else none

/-- The predicate of `_check_null_pointer` on the line at index `i`: an
allocation with an assignment, with no null token in the next four lines. -/
def nullPointerHit (lines : List (List Char)) (il : Nat × List Char) : Bool :=
  (hasSub il.2 (str "malloc(") || hasSub il.2 (str "calloc(")) && hasSub il.2 (str "=") &&
    !windowHasNull lines il.1

/-- The violation built by `_check_null_pointer` at line index `i`. -/
def nullViolation (d : List Char) (i : Nat) (line : List Char) : Violation :=
  { rule_description := d, violation_type := str "null_pointer",
    severity := str "medium", message := nullCheckMessage,
    suggestion := str "メモリ割り当て失敗時の処理を追加してください",
    line_number := some (i + 1), detected_pattern := pyStrip line }

/-- `_check_null_pointer(code, description)`: the first qualifying line. -/
def checkNullPointer (code d : List Char) : Option Violation :=
  let lines := code.splitOn '\n'
  ((lines.enum.find? (nullPointerHit lines)).map (fun il => nullViolation d il.1 il.2))

/-- The catalog of `_check_dangerous_functions`: dangerous call mapped to
its safe replacement. -/
def dangerCatalog : List (List Char × List Char) :=
  [(str "strcpy", str "strncpy"), (str "strcat", str "strncat"),
   (str "sprintf", str "snprintf"), (str "gets", str "fgets")]

/-- `_check_dangerous_functions(code, description)`. -/
def checkDangerousFunctions (code d : List Char) : Option Violation :=
  (dangerCatalog.find? (fun p => hasSub code (p.1 ++ str "("))).map (fun p =>
    { rule_description := d, violation_type := str "dangerous_function",
      severity := str "high",
      message := str "危険な関数 " ++ p.1 ++ str " の使用を検出",
      suggestion := p.2 ++ str " を使用してください",
      detected_pattern := p.1 })

/-- `_check_error_handling(code, description)`. -/
def checkErrorHandling (code d : List Char) : Option Violation :=
  if !hasSub code (str "return") && !hasSub code (str "void") then
    some { rule_description := d, violation_type := str "error_handling",
           severity := str "medium",
           message := str "適切なエラーハンドリングが不足している可能性",
           suggestion := str "戻り値やエラーコードでエラー状態を通知してください",
           detected_pattern := str "missing_return_value" }
  else none

/-- The loop of `_check_performance`: the `in_loop` flag is recomputed
first (a loop keyword sets it, otherwise a closing brace clears it), then
an allocation on the line while inside a loop returns a violation. -/
def perfGo (d : List Char) : List (Nat × List Char) → Bool → Option Violation
  | [], _ => none
  | il :: rest, inLoop =>
    let inLoop' :=
      if hasSub il.2 (str "for(") || hasSub il.2 (str "while(") || hasSub il.2 (str "do\x7b") then true
      else if hasSub il.2 (str "\x7d") then false
      else inLoop
    if inLoop' && (hasSub il.2 (str "malloc(") || hasSub il.2 (str "calloc(")) then
      some { rule_description := d, violation_type := str "performance",
             severity := str "medium",
             message := str "ループ内でメモリ割り当てを実行",
             suggestion := str "可能であればループ外でメモリを事前割り当てしてください",
             line_number := some (il.1 + 1), detected_pattern := pyStrip il.2 }
    else perfGo d rest inLoop'

/-- `_check_performance(code, description)`. -/
def checkPerformance (code d : List Char) : Option Violation :=
  perfGo d (code.splitOn '\n').enum false

/-- `_check_comments(code, description)`. -/
def checkComments (code d : List Char) : Option Violation :=
  let commentCount := pyCount code (str "//") + pyCount code (str "/*")
  let lineCount := (code.splitOn '\n').length
  if 20 < lineCount && commentCount = 0 then
    some { rule_description := d, violation_type := str "documentation",
           severity := str "low",
           message := str "コメントが不足しています",
           suggestion := str "重要な処理にはコメントを追加してください",
           detected_pattern := str "lines:" ++ natStr lineCount ++ str ", comments:" ++ natStr commentCount }
  else none

/-- `_check_generic_rule(rule, code, description)`: the first word of the
description longer than three characters occurring case-insensitively in
the code (`rule.get("priority", "low")` is the rule's priority, which is
a required key here). -/
def checkGenericRule (rule : Rule) (code d : List Char) : Option Violation :=
  ((pySplitWs d).find? (fun kw => 3 < kw.length && hasSub (pyLower code) (pyLower kw))).map
    (fun kw =>
      { rule_description := d, violation_type := str "generic",
        severity := rule.priority,
        message := str "ルール \x27" ++ d ++ str "\x27 に関連する可能性のあるパターンを検出",
        suggestion := str "詳細な確認を行ってください",
        detected_pattern := kw })

/-- `_evaluate_rule(rule, code_content, file_path)`: the if/elif keyword
chain classifying the rule description and dispatching to a checker (the
`file_path` parameter is unused by the source as well; the dead local
`category = rule.get("category", "custom")` is omitted). -/
def evaluateRule (rule : Rule) (code _filePath : List Char) : Option Violation :=
  let d := rule.description
  if hasSub d (str "バッファオーバーフロー") || hasSub (pyLower d) (str "buffer overflow") then
    checkBufferOverflow code d
  else if hasSub d (str "メモリリーク") || hasSub (pyLower d) (str "memory leak") then
    checkMemoryLeak code d
  else if hasSub (pyLower d) (str "null") || hasSub d (str "ヌル") then
    checkNullPointer code d
  else if hasSub d (str "危険な関数") || hasSub (pyLower d) (str "dangerous function") then
    checkDangerousFunctions code d
  else if hasSub d (str "エラーハンドリング") || hasSub (pyLower d) (str "error handling") then
    checkErrorHandling code d
  else if hasSub d (str "パフォーマンス") || hasSub (pyLower d) (str "performance") then
    checkPerformance code d
  else if hasSub d (str "コメント") || hasSub (pyLower d) (str "comment") then
    checkComments code d
  else
    checkGenericRule rule code d

/-- Shell-style glob matching as `fnmatch.fnmatch(name, pattern)` performs
it on a case-sensitive filesystem: `*` matches any (possibly empty) run of
characters, `?` matches exactly one character, every other pattern
character matches itself.  (`fnmatch` additionally supports `[seq]`
character classes, which no pattern in this development uses; a `[` here
matches itself.) -/
def globMatch : List Char → List Char → Bool
  | [], [] => true
  | [], _ :: _ => false
  | '*' :: p, s =>
    globMatch p s ||
      (match s with
       | [] => false
       | _ :: s' => globMatch ('*' :: p) s')
  | '?' :: _, [] => false
  | '?' :: p, _ :: s => globMatch p s
  | _ :: _, [] => false
  | c :: p, d :: s => c = d && globMatch p s
termination_by p s => (p.length, s.length)

/-- `_file_matches_patterns(file_path, patterns)`. -/
def fileMatchesPatterns (filePath : List Char) (patterns : List (List Char)) : Bool :=
  patterns.any (fun pat => globMatch pat filePath)

/-- The configured review standards: an ordered association of category
name to rule list, as `config_manager.get_review_standards()` returns. -/
abbrev Standards := List (List Char × List Rule)

/-- `_get_applicable_rules(file_path)`: per category, the rules whose
`applicable_files` patterns (defaulting to `["*"]`) match the path;
categories left with no rule are omitted. -/
def getApplicableRules (standards : Standards) (filePath : List Char) : Standards :=
  (standards.map (fun cr =>
    (cr.1, cr.2.filter (fun r =>
      fileMatchesPatterns filePath (r.applicable_files.getD [str "*"]))))).filter
    (fun cr => !cr.2.isEmpty)

/-- One applied-rule entry of the evaluation result. -/
structure AppliedRule where
  category : List Char
  description : List Char
  priority : List Char
deriving DecidableEq, Repr

/-- The summary dictionary of the evaluation result. -/
structure EvalSummary where
  total_rules : Nat
  violations_found : Nat
  compliance_score : ℚ
deriving DecidableEq, Repr

/-- The result dictionary of `_evaluate_file`. -/
structure EvaluationResult where
  file_path : List Char
  applied_rules : List AppliedRule
  violations : List Violation
  summary : EvalSummary
deriving DecidableEq, Repr

/-- The inner loop of `_evaluate_file` over one category's rules: the
applied-rule entries, the violations (tagged with the category), and the
`total_rules` and `violations` counters. -/
def evalRuleList (code filePath category : List Char) :
    List Rule → List AppliedRule × List Violation × Nat × Nat
  | [] => ([], [], 0, 0)
  | r :: rs =>
    let rest := evalRuleList code filePath category rs
    let applied : AppliedRule :=
      { category := category, description := r.description, priority := r.priority }
    match evaluateRule r code filePath with
    | some v =>
      (applied :: rest.1, { v with category := some category } :: rest.2.1,
        rest.2.2.1 + 1, rest.2.2.2 + 1)
    | none => (applied :: rest.1, rest.2.1, rest.2.2.1 + 1, rest.2.2.2)

/-- The outer loop of `_evaluate_file` over the categories. -/
def evalCategories (code filePath : List Char) :
    Standards → List AppliedRule × List Violation × Nat × Nat
  | [] => ([], [], 0, 0)
  | cr :: rest =>
    let h := evalRuleList code filePath cr.1 cr.2
    let t := evalCategories code filePath rest
    (h.1 ++ t.1, h.2.1 ++ t.2.1, h.2.2.1 + t.2.2.1, h.2.2.2 + t.2.2.2)

/-- `_evaluate_file(file_path, code_content, rules_category)`: restricts
the applicable rules to one category when `rules_category` is given
(`applicable_rules.get(rules_category, [])`), evaluates every rule, and
computes the summary; the compliance score is
`(total − violations) / total × 100` when `total > 0` and `100.0`
otherwise. -/
def evaluateFile (standards : Standards) (filePath codeContent : List Char)
    (rulesCategory : Option (List Char)) : EvaluationResult :=
  let applicable := getApplicableRules standards filePath
  let applicable :=
    match rulesCategory with
    | some rc => [(rc, (applicable.lookup rc).getD [])]
    | none => applicable
  let r := evalCategories codeContent filePath applicable
  let totalRules := r.2.2.1
  let violations := r.2.2.2
  { file_path := filePath
    applied_rules := r.1
    violations := r.2.1
    summary :=
      { total_rules := totalRules
        violations_found := violations
        compliance_score :=
          if 0 < totalRules then
            ((totalRules : ℚ) - (violations : ℚ)) / (totalRules : ℚ) * 100
          else 100 } }

/-! ### Specification-side rule classification (spec §4.4)

The following definitions follow the specification's words — an ordered
dispatch table of seven keyword families with case-insensitive substring
membership — and are to be compared with the implementation's
`_evaluate_rule` chain above. -/

/-- The seven keyword families of the specification. -/
inductive RuleFamily where
  | bufferOverflow
  | memoryLeak
  | nullPointer
  | dangerousFunction
  | errorHandling
  | performance
  | documentation
deriving DecidableEq, Repr

/-- The fixed keyword set of each family. -/
def familyKeywords : RuleFamily → List (List Char)
  | .bufferOverflow => [str "バッファオーバーフロー", str "buffer overflow"]
  | .memoryLeak => [str "メモリリーク", str "memory leak"]
  | .nullPointer => [str "null", str "ヌル"]
  | .dangerousFunction => [str "危険な関数", str "dangerous function"]
  | .errorHandling => [str "エラーハンドリング", str "error handling"]
  | .performance => [str "パフォーマンス", str "performance"]
  | .documentation => [str "コメント", str "comment"]

/-- Case-insensitive substring membership of a keyword in a description. -/
def ciMember (d kw : List Char) : Bool := hasSub (pyLower d) (pyLower kw)

/-- The fixed priority order of the seven families. -/
def familyOrder : List RuleFamily :=
  [.bufferOverflow, .memoryLeak, .nullPointer, .dangerousFunction,
   .errorHandling, .performance, .documentation]

/-- Specification-side classification: the first family in priority order
one of whose keywords occurs (case-insensitively) in the description. -/
def specClassify (d : List Char) : Option RuleFamily :=
  familyOrder.find? (fun f => (familyKeywords f).any (ciMember d))

/-- The specialised evaluator of each family. -/
def familyEvaluator : RuleFamily → List Char → List Char → Option Violation
  | .bufferOverflow => checkBufferOverflow
  | .memoryLeak => checkMemoryLeak
  | .nullPointer => checkNullPointer
  | .dangerousFunction => checkDangerousFunctions
  | .errorHandling => checkErrorHandling
  | .performance => checkPerformance
  | .documentation => checkComments

/-- Specification-side rule evaluation: dispatch on the classified family,
falling back to the generic evaluator when no family matches. -/
def specEvaluateRule (rule : Rule) (code : List Char) : Option Violation :=
  match specClassify rule.description with
  | some fam => familyEvaluator fam code rule.description
  | none => checkGenericRule rule code rule.description

/-! ### Helper lemmas -/

/-- `List.find?` returns the first element satisfying the predicate: the
list splits at the returned element, everything before it failing. -/
theorem find?_first {α : Type} (p : α → Bool) :
    ∀ (l : List α) (a : α), l.find? p = some a →
      ∃ l1 l2, l = l1 ++ a :: l2 ∧ p a = true ∧ ∀ b ∈ l1, p b = false := by
  intro l
  induction l with
  | nil => intro a h; simp [List.find?] at h
  | cons c rest ih =>
    intro a h
    by_cases hc : p c
    · simp only [List.find?_cons, hc, if_pos] at h
      refine ⟨[], rest, ?_, ?_, ?_⟩ <;> simp_all
    · simp only [List.find?_cons, hc, if_neg, Bool.false_eq_true, if_false] at h
      obtain ⟨l1, l2, he, hpa, hprev⟩ := ih a h
      refine ⟨c :: l1, l2, by simp [he], hpa, ?_⟩
      intro b hb
      rcases List.mem_cons.mp hb with rfl | hb
      · simpa using hc
      · exact hprev b hb

/-- The counters of the inner `_evaluate_file` loop agree with the lengths
of the lists it builds, and violations never outnumber applied rules. -/
theorem evalRuleList_counts (code fp cat : List Char) (rules : List Rule) :
    (evalRuleList code fp cat rules).2.2.1 = (evalRuleList code fp cat rules).1.length ∧
    (evalRuleList code fp cat rules).2.2.2 = (evalRuleList code fp cat rules).2.1.length ∧
    (evalRuleList code fp cat rules).2.1.length ≤ (evalRuleList code fp cat rules).1.length := by
  induction rules with
  | nil => simp [evalRuleList]
  | cons r rs ih =>
    simp only [evalRuleList]
    cases evaluateRule r code fp <;> simp <;> omega

/-- The counters of the outer `_evaluate_file` loop agree with the lengths
of the lists it builds, and violations never outnumber applied rules. -/
theorem evalCategories_counts (code fp : List Char) (l : Standards) :
    (evalCategories code fp l).2.2.1 = (evalCategories code fp l).1.length ∧
    (evalCategories code fp l).2.2.2 = (evalCategories code fp l).2.1.length ∧
    (evalCategories code fp l).2.1.length ≤ (evalCategories code fp l).1.length := by
  induction l with
  | nil => simp [evalCategories]
  | cons cr rest ih =>
    have h := evalRuleList_counts code fp cr.1 cr.2
    simp only [evalCategories, List.length_append]
    omega

/-- Bounds of the compliance-score formula over the rationals. -/
theorem score_formula_bounds (t v : Nat) (hvt : v ≤ t) :
    0 ≤ (if 0 < t then ((t : ℚ) - (v : ℚ)) / (t : ℚ) * 100 else 100) ∧
    (if 0 < t then ((t : ℚ) - (v : ℚ)) / (t : ℚ) * 100 else 100) ≤ 100 := by
  split
  · rename_i ht
    have htq : (0 : ℚ) < (t : ℚ) := by exact_mod_cast ht
    have hvq : (v : ℚ) ≤ (t : ℚ) := by exact_mod_cast hvt
    constructor
    · apply mul_nonneg _ (by norm_num)
      exact div_nonneg (by linarith) (le_of_lt htq)
    · have h1 : ((t : ℚ) - (v : ℚ)) / (t : ℚ) ≤ 1 := by
        rw [div_le_one htq]; linarith
      calc ((t : ℚ) - (v : ℚ)) / (t : ℚ) * 100 ≤ 1 * 100 :=
            mul_le_mul_of_nonneg_right h1 (by norm_num)
        _ = 100 := by norm_num
  · norm_num

/-- The summary of `_evaluate_file` is the score formula applied to its
own counters. -/
theorem evaluateFile_summary_eq (standards : Standards) (fp code : List Char)
    (rc : Option (List Char)) :
    (evaluateFile standards fp code rc).summary.compliance_score =
      (if 0 < (evaluateFile standards fp code rc).summary.total_rules then
        (((evaluateFile standards fp code rc).summary.total_rules : ℚ) -
          ((evaluateFile standards fp code rc).summary.violations_found : ℚ)) /
          ((evaluateFile standards fp code rc).summary.total_rules : ℚ) * 100
      else 100) := by
  simp only [evaluateFile]

/-- Violations found never outnumber total rules in an evaluation result. -/
theorem evaluateFile_viol_le_total (standards : Standards) (fp code : List Char)
    (rc : Option (List Char)) :
    (evaluateFile standards fp code rc).summary.violations_found ≤
      (evaluateFile standards fp code rc).summary.total_rules := by
  simp only [evaluateFile]
  cases rc with
  | none =>
    have h := evalCategories_counts code fp (getApplicableRules standards fp)
    exact le_of_le_of_eq (le_of_eq_of_le h.2.1 h.2.2) h.1.symm
  | some rc2 =>
    have h :=
      evalCategories_counts code fp
        [(rc2, ((getApplicableRules standards fp).lookup rc2).getD [])]
    exact le_of_le_of_eq (le_of_eq_of_le h.2.1 h.2.2) h.1.symm

/-- C10: for every file and rule set, the `EvaluationResult` returned by
`_evaluate_file` is internally consistent: `summary.total_rules` equals
the length of `applied_rules`, `summary.violations_found` equals the
length of `violations`, and the violations list is never longer than the
applied-rules list. -/
theorem claim10_evaluation_result_consistency (standards : Standards)
    (fp code : List Char) (rc : Option (List Char)) :
    (evaluateFile standards fp code rc).summary.total_rules =
      (evaluateFile standards fp code rc).applied_rules.length ∧
    (evaluateFile standards fp code rc).summary.violations_found =
      (evaluateFile standards fp code rc).violations.length ∧
    (evaluateFile standards fp code rc).violations.length ≤
      (evaluateFile standards fp code rc).applied_rules.length := by
  simp only [evaluateFile]
  cases rc <;> exact evalCategories_counts code fp _

/-- C1: the compliance score of `_evaluate_file` equals
`(total − violations) / total × 100` whenever at least one rule is
applicable, equals exactly `100` when zero rules are applicable, and
always lies in `[0, 100]`. -/
theorem claim1_compliance_score (standards : Standards) (fp code : List Char)
    (rc : Option (List Char)) :
    ((evaluateFile standards fp code rc).summary.total_rules = 0 →
      (evaluateFile standards fp code rc).summary.compliance_score = 100) ∧
    (0 < (evaluateFile standards fp code rc).summary.total_rules →
      (evaluateFile standards fp code rc).summary.compliance_score =
        (((evaluateFile standards fp code rc).summary.total_rules : ℚ) -
          ((evaluateFile standards fp code rc).summary.violations_found : ℚ)) /
          ((evaluateFile standards fp code rc).summary.total_rules : ℚ) * 100) ∧
    0 ≤ (evaluateFile standards fp code rc).summary.compliance_score ∧
    (evaluateFile standards fp code rc).summary.compliance_score ≤ 100 := by
  have hle := evaluateFile_viol_le_total standards fp code rc
  have heq := evaluateFile_summary_eq standards fp code rc
  have hb := score_formula_bounds (evaluateFile standards fp code rc).summary.total_rules
    (evaluateFile standards fp code rc).summary.violations_found hle
  refine ⟨?_, ?_, ?_, ?_⟩
  · intro h0; rw [heq, h0]; norm_num
  · intro hpos; rw [heq, if_pos hpos]
  · rw [heq]; exact hb.1
  · rw [heq]; exact hb.2

/-- Witness for C1 at a concrete input: with no configured standards no
rule is applicable and the score is exactly 100. -/
theorem claim1_compliance_score_witness :
    (evaluateFile [] (str "main.c") (str "int x;") none).summary.compliance_score = 100 :=
  (claim1_compliance_score [] (str "main.c") (str "int x;") none).1 (by rfl)

/-- The violations list of an evaluation result is never longer than its
applied-rules list. -/
theorem evaluateFile_viol_le_applied (standards : Standards) (fp code : List Char)
    (rc : Option (List Char)) :
    (evaluateFile standards fp code rc).violations.length ≤
      (evaluateFile standards fp code rc).applied_rules.length := by
  simp only [evaluateFile]
  cases rc with
  | none => exact (evalCategories_counts code fp (getApplicableRules standards fp)).2.2
  | some rc2 =>
    exact (evalCategories_counts code fp
      [(rc2, ((getApplicableRules standards fp).lookup rc2).getD [])]).2.2

/-- C6: each specialised family evaluator emits at most one violation and
selects the first match — shown for the buffer-overflow evaluator (first
catalog entry whose call pattern occurs) and the null-pointer evaluator
(first qualifying line) — and consequently the number of violations
recorded for a file never exceeds the number of applicable rules. -/
theorem claim6_specialized_evaluators_first_match :
    (∀ code d v, checkBufferOverflow code d = some v →
      ∃ pre f post, bufCatalog = pre ++ f :: post ∧
        hasSub code (f ++ str "(") = true ∧
        (∀ g ∈ pre, hasSub code (g ++ str "(") = false) ∧
        v = bufViolation d f) ∧
    (∀ code d, checkBufferOverflow code d = none ↔
      ∀ f ∈ bufCatalog, hasSub code (f ++ str "(") = false) ∧
    (∀ code d v, checkNullPointer code d = some v →
      ∃ pre il post, (code.splitOn '\n').enum = pre ++ il :: post ∧
        nullPointerHit (code.splitOn '\n') il = true ∧
        (∀ q ∈ pre, nullPointerHit (code.splitOn '\n') q = false) ∧
        v = nullViolation d il.1 il.2) ∧
    (∀ standards fp code rc,
      (evaluateFile standards fp code rc).violations.length ≤
        (evaluateFile standards fp code rc).applied_rules.length) := by
  refine ⟨?_, ?_, ?_, evaluateFile_viol_le_applied⟩
  · intro code d v h
    simp only [checkBufferOverflow, Option.map_eq_some'] at h
    obtain ⟨f, hf, rfl⟩ := h
    obtain ⟨pre, post, hsplit, hp, hprev⟩ := find?_first _ _ _ hf
    exact ⟨pre, f, post, hsplit, hp, fun g hg => hprev g hg, rfl⟩
  · intro code d
    simp only [checkBufferOverflow, Option.map_eq_none', List.find?_eq_none]
    constructor
    · intro h f hf; simpa using h f hf
    · intro h f hf; simpa using h f hf
  · intro code d v h
    simp only [checkNullPointer, Option.map_eq_some'] at h
    obtain ⟨il, hil, rfl⟩ := h
    obtain ⟨pre, post, hsplit, hp, hprev⟩ := find?_first _ _ _ hil
    exact ⟨pre, il, post, hsplit, hp, fun q hq => hprev q hq, rfl⟩

/-- Witness for C6 at a concrete input: on code containing both `strcat(`
and `gets(`, the buffer-overflow evaluator reports exactly the first
catalog entry `strcat`. -/
theorem claim6_specialized_evaluators_first_match_witness :
    ∃ pre f post, bufCatalog = pre ++ f :: post ∧
      hasSub (str "gets(s); strcat(a,b);") (f ++ str "(") = true ∧
      (∀ g ∈ pre, hasSub (str "gets(s); strcat(a,b);") (g ++ str "(") = false) ∧
      bufViolation (str "x") (str "strcat") = bufViolation (str "x") f :=
  claim6_specialized_evaluators_first_match.1 (str "gets(s); strcat(a,b);") (str "x")
    (bufViolation (str "x") (str "strcat")) (by decide)

/-- Code points of the lowercase ASCII letters survive `Char.ofNat`. -/
theorem toNat_ofNat_lower : ∀ k, k < 26 → (Char.ofNat (97 + k)).toNat = 97 + k := by decide

/-- A character whose code point is beyond the ASCII letters is hit by
`pyLowerChar` only from itself. -/
theorem pyLowerChar_eq_iff (x : Char) (hx : 122 < x.toNat) (c : Char) :
    (pyLowerChar c = x) ↔ (c = x) := by
  unfold pyLowerChar
  split
  next h =>
    simp only [Bool.and_eq_true, decide_eq_true_eq] at h
    constructor
    · intro he
      exfalso
      have hk : c.toNat + 32 = 97 + (c.toNat + 32 - 97) := by omega
      have ht : (Char.ofNat (c.toNat + 32)).toNat = c.toNat + 32 := by
        rw [hk]; exact toNat_ofNat_lower _ (by omega)
      rw [he] at ht
      omega
    · intro he
      exfalso
      subst he
      omega
  next h => exact Iff.rfl

/-- Lowering the subject does not affect prefix tests against text made of
non-ASCII characters (such as the Japanese rule keywords). -/
theorem isPrefixOf_pyLower_fixed :
    ∀ (t s : List Char), (∀ x ∈ t, 122 < x.toNat) →
      t.isPrefixOf (pyLower s) = t.isPrefixOf s
  | [], s, _ => by simp [List.isPrefixOf]
  | x :: t, [], _ => by simp [pyLower, List.isPrefixOf]
  | x :: t, c :: s, ht => by
    simp only [pyLower, List.map_cons, List.isPrefixOf]
    have hiff := pyLowerChar_eq_iff x (ht x (by simp)) c
    have hx : (x == pyLowerChar c) = (x == c) := by
      by_cases h : c = x
      · have : pyLowerChar c = x := hiff.mpr h
        subst h
        simp [this]
      · have h2 : ¬(pyLowerChar c = x) := fun hh => h (hiff.mp hh)
        have hb1 : (x == pyLowerChar c) = false := by
          simp [beq_iff_eq]; intro hh; exact h2 hh.symm
        have hb2 : (x == c) = false := by
          simp [beq_iff_eq]; intro hh; exact h hh.symm
        rw [hb1, hb2]
    have ih := isPrefixOf_pyLower_fixed t s (fun y hy => ht y (by simp [hy]))
    simp only [pyLower] at ih
    rw [hx, ih]

/-- Lowering the subject does not affect substring tests against text made
of non-ASCII characters (such as the Japanese rule keywords). -/
theorem hasSub_pyLower_fixed (t : List Char) (ht : ∀ x ∈ t, 122 < x.toNat) :
    ∀ s : List Char, hasSub (pyLower s) t = hasSub s t
  | [] => by simp [pyLower, hasSub]
  | c :: s => by
    have h1 := isPrefixOf_pyLower_fixed t (c :: s) ht
    have h2 := hasSub_pyLower_fixed t ht s
    simp only [pyLower, List.map_cons] at h1 h2 ⊢
    simp only [hasSub]
    rw [h1, h2]

/-- `ciMember` against an all-non-ASCII keyword is the raw substring test
the source performs. -/
theorem ciMember_jp (d kw : List Char) (h1 : pyLower kw = kw)
    (h2 : ∀ x ∈ kw, 122 < x.toNat) : ciMember d kw = hasSub d kw := by
  unfold ciMember
  rw [h1, hasSub_pyLower_fixed kw h2 d]

/-- `ciMember` against an already-lowercase keyword is the lowered
substring test the source performs. -/
theorem ciMember_ascii (d kw : List Char) (h1 : pyLower kw = kw) :
    ciMember d kw = hasSub (pyLower d) kw := by
  unfold ciMember
  rw [h1]

/-- The buffer-overflow family's keyword test coincides with the source's condition. -/
theorem anyBuf (d : List Char) :
    (familyKeywords .bufferOverflow).any (ciMember d) =
      (hasSub d (str "バッファオーバーフロー") || hasSub (pyLower d) (str "buffer overflow")) := by
  simp only [familyKeywords, List.any_cons, List.any_nil, Bool.or_false]
  rw [ciMember_jp d _ (by decide) (by decide), ciMember_ascii d _ (by decide)]

/-- The memory-leak family's keyword test coincides with the source's condition. -/
theorem anyMemLeak (d : List Char) :
    (familyKeywords .memoryLeak).any (ciMember d) =
      (hasSub d (str "メモリリーク") || hasSub (pyLower d) (str "memory leak")) := by
  simp only [familyKeywords, List.any_cons, List.any_nil, Bool.or_false]
  rw [ciMember_jp d _ (by decide) (by decide), ciMember_ascii d _ (by decide)]

/-- The null-pointer family's keyword test coincides with the source's condition. -/
theorem anyNull (d : List Char) :
    (familyKeywords .nullPointer).any (ciMember d) =
      (hasSub (pyLower d) (str "null") || hasSub d (str "ヌル")) := by
  simp only [familyKeywords, List.any_cons, List.any_nil, Bool.or_false]
  rw [ciMember_jp d (str "ヌル") (by decide) (by decide), ciMember_ascii d _ (by decide)]

/-- The dangerous-function family's keyword test coincides with the source's condition. -/
theorem anyDanger (d : List Char) :
    (familyKeywords .dangerousFunction).any (ciMember d) =
      (hasSub d (str "危険な関数") || hasSub (pyLower d) (str "dangerous function")) := by
  simp only [familyKeywords, List.any_cons, List.any_nil, Bool.or_false]
  rw [ciMember_jp d _ (by decide) (by decide), ciMember_ascii d _ (by decide)]

/-- The error-handling family's keyword test coincides with the source's condition. -/
theorem anyErrH (d : List Char) :
    (familyKeywords .errorHandling).any (ciMember d) =
      (hasSub d (str "エラーハンドリング") || hasSub (pyLower d) (str "error handling")) := by
  simp only [familyKeywords, List.any_cons, List.any_nil, Bool.or_false]
  rw [ciMember_jp d _ (by decide) (by decide), ciMember_ascii d _ (by decide)]

/-- The performance family's keyword test coincides with the source's condition. -/
theorem anyPerf (d : List Char) :
    (familyKeywords .performance).any (ciMember d) =
      (hasSub d (str "パフォーマンス") || hasSub (pyLower d) (str "performance")) := by
  simp only [familyKeywords, List.any_cons, List.any_nil, Bool.or_false]
  rw [ciMember_jp d _ (by decide) (by decide), ciMember_ascii d _ (by decide)]

/-- The documentation family's keyword test coincides with the source's condition. -/
theorem anyDoc (d : List Char) :
    (familyKeywords .documentation).any (ciMember d) =
      (hasSub d (str "コメント") || hasSub (pyLower d) (str "comment")) := by
  simp only [familyKeywords, List.any_cons, List.any_nil, Bool.or_false]
  rw [ciMember_jp d _ (by decide) (by decide), ciMember_ascii d _ (by decide)]

/-- C5: `_evaluate_rule` tests the rule's description in the fixed priority
order against the seven keyword families using case-insensitive substring
membership, selects the first family with a matching keyword, and for any
description matching no family dispatches to the generic evaluator without
error. -/
theorem claim5_rule_classification_dispatch (rule : Rule) (code fp : List Char) :
    evaluateRule rule code fp = specEvaluateRule rule code ∧
    (specClassify rule.description = none →
      evaluateRule rule code fp = checkGenericRule rule code rule.description) := by
  have hmain : evaluateRule rule code fp = specEvaluateRule rule code := by
    unfold evaluateRule specEvaluateRule specClassify familyOrder
    dsimp only
    split_ifs with h1 h2 h3 h4 h5 h6 h7 <;>
      simp [List.find?_cons, anyBuf, anyMemLeak, anyNull, anyDanger, anyErrH, anyPerf, anyDoc,
        familyEvaluator, *]
  refine ⟨hmain, fun hn => ?_⟩
  rw [hmain]
  unfold specEvaluateRule
  rw [hn]

/-- Witness for C5 at a concrete input: the empty rule description matches
no family and is handled by the generic evaluator, which raises no error
and finds nothing. -/
theorem claim5_rule_classification_dispatch_witness :
    evaluateRule { description := [], priority := str "low" } (str "abc") (str "a.c") =
      checkGenericRule { description := [], priority := str "low" } (str "abc") [] :=
  (claim5_rule_classification_dispatch { description := [], priority := str "low" }
    (str "abc") (str "a.c")).2 (by decide)

/-- A leading `*` in a glob pattern matches exactly an arbitrary run of
characters followed by a match of the rest of the pattern. -/
theorem globMatch_star_iff (p : List Char) :
    ∀ s, globMatch ('*' :: p) s = true ↔ ∃ s1 s2, s = s1 ++ s2 ∧ globMatch p s2 = true := by
  intro s
  induction s with
  | nil =>
    rw [show globMatch ('*' :: p) [] = (globMatch p [] || false) from by simp [globMatch]]
    constructor
    · intro h
      exact ⟨[], [], rfl, by simpa using h⟩
    · rintro ⟨s1, s2, he, hm⟩
      obtain ⟨rfl, rfl⟩ := List.append_eq_nil.mp he.symm
      simpa using hm
  | cons c s ih =>
    rw [show globMatch ('*' :: p) (c :: s) = (globMatch p (c :: s) || globMatch ('*' :: p) s) from by
      simp [globMatch]]
    constructor
    · intro h
      rcases Bool.or_eq_true_iff.mp h with h | h
      · exact ⟨[], c :: s, rfl, h⟩
      · obtain ⟨s1, s2, he, hm⟩ := ih.mp h
        exact ⟨c :: s1, s2, by simp [he], hm⟩
    · rintro ⟨s1, s2, he, hm⟩
      cases s1 with
      | nil => simp at he; subst he; simp [hm]
      | cons a s1 =>
        simp at he
        obtain ⟨rfl, he2⟩ := he
        have : globMatch ('*' :: p) s = true := ih.mpr ⟨s1, s2, he2, hm⟩
        simp [this]

/-- The glob pattern `.c` matches only the literal text `.c`. -/
theorem globMatch_dotc (s : List Char) : globMatch (str ".c") s = true ↔ s = str ".c" := by
  match s with
  | [] => simp [globMatch, str]
  | [a] => simp [globMatch, str]
  | a :: b :: rest =>
    show globMatch ['.', 'c'] (a :: b :: rest) = true ↔ _
    rw [show globMatch ['.', 'c'] (a :: b :: rest) = (('.' : Char) = a && globMatch ['c'] (b :: rest)) from by
      simp [globMatch]]
    rw [show globMatch ['c'] (b :: rest) = (('c' : Char) = b && globMatch [] rest) from by
      simp [globMatch]]
    cases rest with
    | nil =>
      simp [globMatch, str]
      constructor
      · rintro ⟨rfl, rfl⟩; exact ⟨rfl, rfl⟩
      · rintro ⟨rfl, rfl⟩; exact ⟨rfl, rfl⟩
    | cons d rest2 =>
      simp [globMatch, str]

/-- C7: a rule applies to a file exactly when the path matches at least
one of its shell-style glob patterns, with `*` matching any run of
characters; in particular the pattern `*.c` never matches a path ending
in `.h`, and `_get_applicable_rules` excludes every rule whose
`applicable_files` is `["*.c"]` for such a path. -/
theorem claim7_glob_applicability :
    (∀ path patterns, fileMatchesPatterns path patterns = true ↔
      ∃ pat ∈ patterns, globMatch pat path = true) ∧
    (∀ p s, globMatch ('*' :: p) s = true ↔
      ∃ s1 s2, s = s1 ++ s2 ∧ globMatch p s2 = true) ∧
    (∀ t, fileMatchesPatterns (t ++ str ".h") [str "*.c"] = false) ∧
    (∀ standards t r, r ∈ (getApplicableRules standards (t ++ str ".h")).flatMap Prod.snd →
      r.applicable_files ≠ some [str "*.c"]) := by
  have hdoth : ∀ t : List Char, fileMatchesPatterns (t ++ str ".h") [str "*.c"] = false := by
    intro t
    simp only [fileMatchesPatterns, List.any_cons, List.any_nil, Bool.or_false]
    by_contra hne
    have h : globMatch (str "*.c") (t ++ str ".h") = true := by
      cases h2 : globMatch (str "*.c") (t ++ str ".h") with
      | true => rfl
      | false => exact absurd h2 hne
    rw [show str "*.c" = '*' :: str ".c" from rfl] at h
    obtain ⟨s1, s2, he, hm⟩ := (globMatch_star_iff (str ".c") (t ++ str ".h")).mp h
    rw [globMatch_dotc] at hm
    subst hm
    have := congrArg List.reverse he
    simp [str, List.reverse_append] at this
  refine ⟨?_, globMatch_star_iff, hdoth, ?_⟩
  · intro path patterns
    simp [fileMatchesPatterns, List.any_eq_true]
  · intro standards t r hr hsome
    simp only [getApplicableRules, List.mem_flatMap] at hr
    obtain ⟨cr, hcr, hrmem⟩ := hr
    have hcr2 := List.mem_of_mem_filter hcr
    simp only [List.mem_map] at hcr2
    obtain ⟨orig, horig, rfl⟩ := hcr2
    have hpred := List.of_mem_filter hrmem
    rw [hsome] at hpred
    simp only [Option.getD_some] at hpred
    rw [hdoth t] at hpred
    exact absurd hpred (by simp)


/-- Witness for C7 at a concrete input: the path `main.h` does not match
the pattern list `["*.c"]`. -/
theorem claim7_glob_applicability_witness :
    fileMatchesPatterns (str "main" ++ str ".h") [str "*.c"] = false :=
  claim7_glob_applicability.2.2.1 (str "main")

/-- C3: the cyclomatic complexity computed by
`_calculate_function_complexity` is one plus the sum of the raw
(non-overlapping) substring-occurrence counts of `if`, `while`, `for`,
`switch`, `case`, `&&` and `||` over the body text; occurrences inside
string literals and comments count like any other, as the concrete body
`{ /* if */ s = "while"; }` (complexity 3) shows. -/
theorem claim3_cyclomatic_complexity :
    (∀ body, (calcFunctionComplexity body).cyclomatic_complexity =
      1 + (pyCount body (str "if") + pyCount body (str "while") + pyCount body (str "for") +
        pyCount body (str "switch") + pyCount body (str "case") +
        pyCount body (str "&&") + pyCount body (str "||"))) ∧
    (calcFunctionComplexity (str "\x7b /* if */ s = \"while\"; \x7d")).cyclomatic_complexity = 3 := by
  constructor
  · intro body
    simp only [calcFunctionComplexity]
    omega
  · decide

/-- The missing-null-check message is never equal to a leak message (they
differ at character 13). -/
theorem nullCheckMessage_ne_leak (m f : Nat) : nullCheckMessage ≠ leakMessage m f := by
  intro h
  have h13 := congrArg (fun l => l.get? 13) h
  rw [show leakMessage m f =
      str "malloc/calloc(" ++ (natStr m ++ (str ")とfree(" ++ (natStr f ++ str ")の数が不一致"))) from by
    simp [leakMessage, List.append_assoc]] at h13
  rw [show (fun l => List.get? l 13) (str "malloc/calloc(" ++ (natStr m ++ (str ")とfree(" ++ (natStr f ++ str ")の数が不一致")))) = (str "malloc/calloc(").get? 13 from
    List.get?_append (by decide)] at h13
  simp [nullCheckMessage, str] at h13

/-- C4 (amended): the memory pass compares the number of lines containing
an allocation call with the number of lines containing a free call, and
emits exactly one medium-severity memory finding citing those two line
counts exactly when the allocation-line count exceeds the free-line
count; no other finding of the pass cites the counts. -/
theorem claim4_memory_pass_line_counts (content fp : List Char) :
    ((checkMemoryPatterns content fp).filter (fun is =>
        is.category == str "memory" && is.severity == str "medium" &&
        is.message == leakMessage
          (((content.splitOn '\n').enum.filter (fun il => allocLine il.2)).length)
          (((content.splitOn '\n').enum.filter (fun il => hasSub il.2 (str "free("))).length))).length =
      (if ((content.splitOn '\n').enum.filter (fun il => hasSub il.2 (str "free("))).length <
          ((content.splitOn '\n').enum.filter (fun il => allocLine il.2)).length
      then 1 else 0) := by
  have hkey : ∀ (l : List (Nat × List Char)) (g : Nat × List Char → Option AnalyzerIssue)
      (p : AnalyzerIssue → Bool), (∀ a is, g a = some is → p is = false) →
      (l.filterMap g).filter p = [] := by
    intro l g p h
    rw [List.filter_eq_nil_iff]
    intro is his
    obtain ⟨a, _, hga⟩ := List.mem_filterMap.mp his
    simp [h a is hga]
  simp only [checkMemoryPatterns, List.length_map, List.filter_append, List.length_append]
  rw [hkey]
  · split
    next hc =>
      rw [List.filter_cons_of_pos (by simp)]
      simp
    next hc => simp
  · intro a is hga
    split at hga
    · cases hga
      simp [beq_eq_false_iff_ne, nullCheckMessage_ne_leak]
    · cases hga

/-- Counterexample to C4 as stated: a file with two allocation calls on
one line and one free call has two allocation calls and one free call,
yet the memory pass emits no finding citing the counts 2 and 1 (the code
counts lines, not calls, and sees 1 allocation line vs 1 free line). -/
theorem claim4_memory_pass_counterexample :
    ((checkMemoryPatterns (str "a = malloc(1); b = malloc(2);\nfree(a);") (str "test.c")).filter
      (fun is => is.category == str "memory" && is.severity == str "medium" &&
        is.message == leakMessage 2 1)).length ≠ 1 := by decide

/-- A maximal run never extends past the end of the subject. -/
theorem runLen_le (p : Char → Bool) (s : List Char) (i : Nat) :
    runLen p s i ≤ s.length - i := by
  have h := (List.takeWhile_prefix (l := s.drop i) p).sublist.length_le
  simpa [runLen, List.length_drop] using h

/-- Ends reported by `plusRun` lie strictly beyond the start and within
the run. -/
theorem plusRun_mem {p : Char → Bool} {s : List Char} {i j : Nat}
    (h : j ∈ plusRun p s i) : i < j ∧ j ≤ i + runLen p s i := by
  simp only [plusRun, List.mem_map, List.mem_range] at h
  obtain ⟨k, hk, rfl⟩ := h
  omega

/-- Ends reported by `starRun` lie between the start and the end of the
run. -/
theorem starRun_mem {p : Char → Bool} {s : List Char} {i j : Nat}
    (h : j ∈ starRun p s i) : i ≤ j ∧ j ≤ i + runLen p s i := by
  simp only [starRun, List.mem_map, List.mem_range] at h
  obtain ⟨k, hk, rfl⟩ := h
  omega

/-- An end reported by `litAt` is the start plus the literal's length,
and the literal is present there. -/
theorem litAt_mem {t s : List Char} {i j : Nat} (h : j ∈ litAt t s i) :
    j = i + t.length ∧ t.isPrefixOf (s.drop i) = true := by
  unfold litAt at h
  split at h <;> simp_all

/-- Ends reported by `litAt` stay within the subject. -/
theorem litAt_mem_le {t s : List Char} {i j : Nat} (hi : i ≤ s.length)
    (h : j ∈ litAt t s i) : i ≤ j ∧ j ≤ s.length := by
  obtain ⟨rfl, hp⟩ := litAt_mem h
  have hlen := (List.isPrefixOf_iff_prefix.mp hp).sublist.length_le
  simp only [List.length_drop] at hlen
  omega

/-- Ends reported by `plusRun` stay within the subject. -/
theorem plusRun_mem_le {p : Char → Bool} {s : List Char} {i j : Nat}
    (hi : i ≤ s.length) (h : j ∈ plusRun p s i) : i ≤ j ∧ j ≤ s.length := by
  have h1 := plusRun_mem h
  have h2 := runLen_le p s i
  omega

/-- Ends reported by `starRun` stay within the subject. -/
theorem starRun_mem_le {p : Char → Bool} {s : List Char} {i j : Nat}
    (hi : i ≤ s.length) (h : j ∈ starRun p s i) : i ≤ j ∧ j ≤ s.length := by
  have h1 := starRun_mem h
  have h2 := runLen_le p s i
  omega

/-- A matcher whose reported end offsets always lie between the start
offset and the subject length. -/
def MBounded (m : Matcher) : Prop :=
  ∀ s i j, i ≤ s.length → j ∈ m s i → i ≤ j ∧ j ≤ s.length

/-- Sequencing preserves boundedness. -/
theorem seqM_bounded {a b : Matcher} (ha : MBounded a) (hb : MBounded b) :
    MBounded (seqM a b) := by
  intro s i j hi hj
  simp only [seqM, List.mem_flatMap] at hj
  obtain ⟨k, hk, hjk⟩ := hj
  obtain ⟨h1, h2⟩ := ha s i k hi hk
  obtain ⟨h3, h4⟩ := hb s k j h2 hjk
  omega

/-- Alternation preserves boundedness. -/
theorem altM_bounded {a b : Matcher} (ha : MBounded a) (hb : MBounded b) :
    MBounded (altM a b) := by
  intro s i j hi hj
  simp only [altM, List.mem_append] at hj
  rcases hj with hj | hj
  · exact ha s i j hi hj
  · exact hb s i j hi hj

/-- The fuelled star preserves boundedness. -/
theorem starM_bounded {m : Matcher} (hm : MBounded m) : ∀ fuel, MBounded (starM fuel m) := by
  intro fuel
  induction fuel with
  | zero => intro s i j hi hj; simp [starM] at hj; omega
  | succ fuel ih =>
    intro s i j hi hj
    simp only [starM, List.mem_append, List.mem_flatMap, List.mem_filter,
      List.mem_singleton] at hj
    rcases hj with ⟨k, ⟨hk, _⟩, hjk⟩ | rfl
    · obtain ⟨h1, h2⟩ := hm s i k hi hk
      obtain ⟨h3, h4⟩ := ih s k j h2 hjk
      omega
    · omega

/-- `litAt` is bounded. -/
theorem litAt_bounded (t : List Char) : MBounded (litAt t) := by
  intro s i j hi hj
  exact litAt_mem_le hi hj

/-- `plusRun` is bounded. -/
theorem plusRun_bounded (p : Char → Bool) : MBounded (plusRun p) := by
  intro s i j hi hj
  exact plusRun_mem_le hi hj

/-- `starRun` is bounded. -/
theorem starRun_bounded (p : Char → Bool) : MBounded (starRun p) := by
  intro s i j hi hj
  exact starRun_mem_le hi hj

/-- The keyword group matcher is bounded. -/
theorem kwB_bounded : MBounded kwB :=
  altM_bounded (seqM_bounded (litAt_bounded _) (plusRun_bounded _))
    (altM_bounded (seqM_bounded (litAt_bounded _) (plusRun_bounded _))
      (seqM_bounded (litAt_bounded _) (plusRun_bounded _)))

/-- The pointer group matcher is bounded. -/
theorem ptrB_bounded : MBounded ptrB :=
  seqM_bounded (starRun_bounded _) (seqM_bounded (litAt_bounded _) (starRun_bounded _))

/-- The group-1 matcher is bounded. -/
theorem g1M_bounded (fuel : Nat) : MBounded (g1M fuel) :=
  seqM_bounded (starM_bounded kwB_bounded fuel)
    (seqM_bounded (plusRun_bounded _) (starM_bounded ptrB_bounded fuel))

/-- Everything the finditer driver reports was reported by the per-offset
matcher at some offset within the subject. -/
theorem scanAllGo_mem {α : Type} (try_ : List Char → Nat → Option α) (endOf : α → Nat)
    (s : List Char) : ∀ (fuel i : Nat) (a : α), a ∈ scanAllGo try_ endOf s fuel i →
      ∃ k, k ≤ s.length ∧ try_ s k = some a := by
  intro fuel
  induction fuel with
  | zero => intro i a h; simp [scanAllGo] at h
  | succ fuel ih =>
    intro i a h
    simp only [scanAllGo] at h
    split at h
    · rename_i hi
      cases htry : try_ s i with
      | some b =>
        rw [htry] at h
        rcases List.mem_cons.mp h with rfl | h
        · exact ⟨i, hi, htry⟩
        · exact ih _ a h
      | none =>
        rw [htry] at h
        exact ih _ a h
    · simp at h

/-- Everything `scanAll` reports was reported by the per-offset matcher at
some offset within the subject. -/
theorem scanAll_mem {α : Type} {try_ : List Char → Nat → Option α} {endOf : α → Nat}
    {s : List Char} {a : α} (h : a ∈ scanAll try_ endOf s) :
    ∃ k, k ≤ s.length ∧ try_ s k = some a :=
  scanAllGo_mem try_ endOf s (s.length + 1) 0 a h

/-- The head of a list, when present, is a member. -/
theorem head?_mem {α : Type} {l : List α} {a : α} (h : l.head? = some a) : a ∈ l := by
  cases l with
  | nil => simp at h
  | cons b t => simp at h; simp [h]

/-- A function-pattern candidate starts at the anchor offset and ends
within the subject. -/
theorem funcCandidates_spec {s : List Char} {i : Nat} {m : FuncMatch}
    (hi : i ≤ s.length) (h : m ∈ funcCandidates s i) :
    m.start = i ∧ i ≤ m.mend ∧ m.mend ≤ s.length := by
  simp only [funcCandidates, List.mem_flatMap, List.mem_map] at h
  obtain ⟨j1, hj1, j2, hj2, j3, hj3, j4, hj4, j5, hj5, j6, hj6, j7, hj7, j8, hj8, j9, hj9, rfl⟩ := h
  obtain ⟨h1a, h1b⟩ := g1M_bounded (s.length + 1) s i j1 hi hj1
  obtain ⟨h2a, h2b⟩ := plusRun_mem_le h1b hj2
  obtain ⟨h3a, h3b⟩ := plusRun_mem_le h2b hj3
  obtain ⟨h4a, h4b⟩ := starRun_mem_le h3b hj4
  obtain ⟨h5a, h5b⟩ := litAt_mem_le h4b hj5
  obtain ⟨h6a, h6b⟩ := starRun_mem_le h5b hj6
  obtain ⟨h7a, h7b⟩ := litAt_mem_le h6b hj7
  obtain ⟨h8a, h8b⟩ := starRun_mem_le h7b hj8
  obtain ⟨h9a, h9b⟩ := litAt_mem_le h8b hj9
  refine ⟨rfl, ?_, ?_⟩ <;> dsimp only <;> omega

/-- Every reported function match starts within the file. -/
theorem funcMatches_mem {content : List Char} {m : FuncMatch}
    (h : m ∈ funcMatches content) : m.start ≤ content.length := by
  obtain ⟨k, hk, htry⟩ := scanAll_mem h
  have hmem := head?_mem htry
  obtain ⟨hs, _, _⟩ := funcCandidates_spec hk hmem
  omega

/-- A successful `_find_function_end` scan stops strictly beyond its start
and within the scanned text. -/
theorem ffeGo_some_gt : ∀ (rem : List Char) (pos : Nat) (cnt : Int) (found : Bool) (e : Nat),
    ffeGo rem pos cnt found = some e → pos < e ∧ e ≤ pos + rem.length := by
  intro rem
  induction rem with
  | nil => intro pos cnt found e h; simp [ffeGo] at h
  | cons c rest ih =>
    intro pos cnt found e h
    simp only [ffeGo] at h
    split_ifs at h with h1 h2 h3
    · have := ih (pos + 1) (cnt + 1) true e h
      simp only [List.length_cons]; omega
    · simp only [Option.some.injEq] at h
      simp only [List.length_cons]; omega
    · have := ih (pos + 1) (cnt - 1) found e h
      simp only [List.length_cons]; omega
    · have := ih (pos + 1) cnt found e h
      simp only [List.length_cons]; omega

/-- On success the scan stops exactly where the running brace count
(opens minus closes over the scanned text) returns the entry count to
zero. -/
theorem ffeGo_some_balanced :
    ∀ (rem : List Char) (pos : Nat) (cnt : Int) (found : Bool) (e : Nat),
      ffeGo rem pos cnt found = some e →
      cnt + ((List.count '{' (rem.take (e - pos)) : Int) -
        (List.count '}' (rem.take (e - pos)) : Int)) = 0 := by
  intro rem
  induction rem with
  | nil => intro pos cnt found e h; simp [ffeGo] at h
  | cons c rest ih =>
    intro pos cnt found e h
    simp only [ffeGo] at h
    split_ifs at h with h1 h2 h3
    · subst h1
      have hgt := ffeGo_some_gt _ _ _ _ _ h
      have hih := ih (pos + 1) (cnt + 1) true e h
      rw [show e - pos = (e - (pos + 1)) + 1 from by omega, List.take_succ_cons]
      simp only [List.count_cons]
      norm_num
      push_cast at hih ⊢
      omega
    · simp only [Bool.and_eq_true, decide_eq_true_eq] at h3
      simp only [Option.some.injEq] at h
      subst h2
      rw [← h]
      rw [show pos + 1 - pos = 1 from by omega]
      rw [show List.take 1 ('}' :: rest) = ['}'] from by simp]
      simp only [List.count_cons, List.count_nil]
      norm_num
      rw [if_neg h1]
      omega
    · subst h2
      have hgt := ffeGo_some_gt _ _ _ _ _ h
      have hih := ih (pos + 1) (cnt - 1) found e h
      rw [show e - pos = (e - (pos + 1)) + 1 from by omega, List.take_succ_cons]
      simp only [List.count_cons]
      norm_num
      push_cast at hih ⊢
      omega
    · have hgt := ffeGo_some_gt _ _ _ _ _ h
      have hih := ih (pos + 1) cnt found e h
      rw [show e - pos = (e - (pos + 1)) + 1 from by omega, List.take_succ_cons]
      have hb1 : (('{' : Char) == c) = false := beq_eq_false_iff_ne.mpr (fun hh => h1 hh.symm)
      have hb2 : (('}' : Char) == c) = false := beq_eq_false_iff_ne.mpr (fun hh => h2 hh.symm)
      have hb3 : (c == ('{' : Char)) = false := beq_eq_false_iff_ne.mpr h1
      have hb4 : (c == ('}' : Char)) = false := beq_eq_false_iff_ne.mpr h2
      simp only [List.count_cons, hb1, hb2, hb3, hb4, if_false]
      push_cast at hih ⊢
      omega

/-- No closing brace strictly precedes the first opening brace. -/
def noCloseBeforeOpen : List Char → Bool
  | [] => true
  | c :: rest => if c = '}' then false else if c = '{' then true else noCloseBeforeOpen rest

/-- After the opening brace has been seen with positive depth, the depth
stays nonnegative on every prefix of the remaining successful scan. -/
theorem ffeGo_prefixOk_found :
    ∀ (rem : List Char) (pos : Nat) (cnt : Int) (e : Nat),
      1 ≤ cnt → ffeGo rem pos cnt true = some e →
      ∀ p, p <+: rem.take (e - pos) →
        0 ≤ cnt + ((List.count '{' p : Int) - (List.count '}' p : Int)) := by
  intro rem
  induction rem with
  | nil => intro pos cnt e hcnt h; simp [ffeGo] at h
  | cons c rest ih =>
    intro pos cnt e hcnt h p hp
    simp only [ffeGo] at h
    split_ifs at h with h1 h2 h3
    · subst h1
      have hgt := ffeGo_some_gt _ _ _ _ _ h
      rw [show e - pos = (e - (pos + 1)) + 1 from by omega, List.take_succ_cons] at hp
      rcases p with _ | ⟨d, p2⟩
      · simp only [List.count_nil]; omega
      · obtain ⟨rfl, hp2⟩ := List.cons_prefix_cons.mp hp
        have hih := ih (pos + 1) (cnt + 1) e (by omega) h p2 hp2
        simp only [List.count_cons]
        norm_num
        push_cast at hih ⊢
        omega
    · simp only [Bool.and_eq_true, decide_eq_true_eq] at h3
      simp only [Option.some.injEq] at h
      subst h2
      rw [← h, show pos + 1 - pos = 1 from by omega,
        show List.take 1 ('}' :: rest) = ['}'] from by simp] at hp
      rcases p with _ | ⟨d, p2⟩
      · simp only [List.count_nil]; omega
      · obtain ⟨rfl, hp2⟩ := List.cons_prefix_cons.mp hp
        have : p2 = [] := List.prefix_nil.mp hp2
        subst this
        simp only [List.count_cons, List.count_nil]
        norm_num
        rw [if_neg h1]
        omega
    · subst h2
      simp only [Bool.true_and] at h3
      have hc2 : cnt - 1 ≠ 0 := by
        intro hz
        exact h3 (by simp [hz])
      have hgt := ffeGo_some_gt _ _ _ _ _ h
      rw [show e - pos = (e - (pos + 1)) + 1 from by omega, List.take_succ_cons] at hp
      rcases p with _ | ⟨d, p2⟩
      · simp only [List.count_nil]; omega
      · obtain ⟨rfl, hp2⟩ := List.cons_prefix_cons.mp hp
        have hih := ih (pos + 1) (cnt - 1) e (by omega) h p2 hp2
        simp only [List.count_cons]
        norm_num
        rw [if_neg h1]
        push_cast at hih ⊢
        omega
    · have hgt := ffeGo_some_gt _ _ _ _ _ h
      rw [show e - pos = (e - (pos + 1)) + 1 from by omega, List.take_succ_cons] at hp
      rcases p with _ | ⟨d, p2⟩
      · simp only [List.count_nil]; omega
      · obtain ⟨rfl, hp2⟩ := List.cons_prefix_cons.mp hp
        have hih := ih (pos + 1) cnt e hcnt h p2 hp2
        have hb3 : (d == ('{' : Char)) = false := beq_eq_false_iff_ne.mpr h1
        have hb4 : (d == ('}' : Char)) = false := beq_eq_false_iff_ne.mpr h2
        have hb1 : (('{' : Char) == d) = false := beq_eq_false_iff_ne.mpr (fun hh => h1 hh.symm)
        have hb2 : (('}' : Char) == d) = false := beq_eq_false_iff_ne.mpr (fun hh => h2 hh.symm)
        simp only [List.count_cons, hb1, hb2, hb3, hb4, if_false]
        push_cast at hih ⊢
        omega

/-- When no closing brace precedes the first opening brace, the running
depth of a successful scan is nonnegative on every prefix. -/
theorem ffeGo_prefixOk_start :
    ∀ (rem : List Char) (pos : Nat) (e : Nat),
      noCloseBeforeOpen rem = true → ffeGo rem pos 0 false = some e →
      ∀ p, p <+: rem.take (e - pos) →
        0 ≤ ((List.count '{' p : Int) - (List.count '}' p : Int)) := by
  intro rem
  induction rem with
  | nil => intro pos e hn h; simp [ffeGo] at h
  | cons c rest ih =>
    intro pos e hn h p hp
    simp only [ffeGo] at h
    split_ifs at h with h1 h2 h3
    · subst h1
      have hgt := ffeGo_some_gt _ _ _ _ _ h
      rw [show e - pos = (e - (pos + 1)) + 1 from by omega, List.take_succ_cons] at hp
      rcases p with _ | ⟨d, p2⟩
      · simp only [List.count_nil]; omega
      · obtain ⟨rfl, hp2⟩ := List.cons_prefix_cons.mp hp
        have hall := ffeGo_prefixOk_found rest (pos + 1) 1 e (by omega) h p2 hp2
        simp only [List.count_cons]
        norm_num
        push_cast at hall ⊢
        omega
    · exfalso
      subst h2
      simp [noCloseBeforeOpen] at hn
    · exfalso
      subst h2
      simp [noCloseBeforeOpen] at hn
    · have hrest : noCloseBeforeOpen rest = true := by
        rw [show noCloseBeforeOpen (c :: rest) = noCloseBeforeOpen rest from by
          simp [noCloseBeforeOpen, h1, h2]] at hn
        exact hn
      have hgt := ffeGo_some_gt _ _ _ _ _ h
      rw [show e - pos = (e - (pos + 1)) + 1 from by omega, List.take_succ_cons] at hp
      rcases p with _ | ⟨d, p2⟩
      · simp only [List.count_nil]; omega
      · obtain ⟨rfl, hp2⟩ := List.cons_prefix_cons.mp hp
        have hih := ih (pos + 1) e hrest h p2 hp2
        have hb1 : (('{' : Char) == d) = false := beq_eq_false_iff_ne.mpr (fun hh => h1 hh.symm)
        have hb2 : (('}' : Char) == d) = false := beq_eq_false_iff_ne.mpr (fun hh => h2 hh.symm)
        have hb3 : (d == ('{' : Char)) = false := beq_eq_false_iff_ne.mpr h1
        have hb4 : (d == ('}' : Char)) = false := beq_eq_false_iff_ne.mpr h2
        simp only [List.count_cons, hb1, hb2, hb3, hb4, if_false]
        push_cast at hih ⊢
        omega

/-- Character counts over prefixes grow with the prefix length. -/
theorem count_take_mono (c : Char) (s : List Char) {a b : Nat} (h : a ≤ b) :
    List.count c (s.take a) ≤ List.count c (s.take b) := by
  rw [show s.take a = (s.take b).take a from by
    rw [List.take_take, Nat.min_eq_left h]]
  exact (List.take_prefix a (s.take b)).sublist.count_le c

/-- C2 (amended): every extracted `FunctionRecord` satisfies
`start_line ≤ end_line`; whenever the closing-brace scan of
`_find_function_end` succeeds, the delimited body text has equally many
opening and closing braces; and if additionally no closing brace precedes
the first opening brace in the body, scanning the body never drives the
running depth below zero.  (When the scan exhausts a malformed input the
body runs to the end of the text and need not be balanced.) -/
theorem claim2_function_record_invariants :
    (∀ content rec, rec ∈ extractFunctions content → rec.start_line ≤ rec.end_line) ∧
    (∀ content start e, ffeGo (content.drop start) start 0 false = some e →
      List.count '{' (pySlice content start e) = List.count '}' (pySlice content start e)) ∧
    (∀ content start e, ffeGo (content.drop start) start 0 false = some e →
      noCloseBeforeOpen (content.drop start) = true →
      ∀ p, p <+: pySlice content start e →
        (List.count '}' p : Int) ≤ (List.count '{' p : Int)) := by
  refine ⟨?_, ?_, ?_⟩
  · intro content rec hrec
    simp only [extractFunctions, List.mem_map] at hrec
    obtain ⟨m, hm, rfl⟩ := hrec
    have hstart := funcMatches_mem hm
    have hfe : m.start ≤ findFunctionEnd content m.start := by
      unfold findFunctionEnd
      cases hff : ffeGo (content.drop m.start) m.start 0 false with
      | some e =>
        have := (ffeGo_some_gt _ _ _ _ _ hff).1
        simp only [Option.getD_some]
        omega
      | none => simpa only [Option.getD_none] using hstart
    simp only [toFunctionRecord]
    have := count_take_mono '\n' content hfe
    omega
  · intro content start e h
    have hb := ffeGo_some_balanced _ _ _ _ _ h
    show List.count '{' ((content.drop start).take (e - start)) =
      List.count '}' ((content.drop start).take (e - start))
    omega
  · intro content start e h hncbo p hp
    have := ffeGo_prefixOk_start (content.drop start) start e hncbo h p hp
    omega

/-- Counterexample to C2 as stated: on the malformed input `int f() {`
(no closing brace) the extractor produces one function match whose body
text runs to the end of the input and is not brace-balanced. -/
theorem claim2_counterexample :
    ¬(∀ m ∈ funcMatches (str "int f() \x7b"),
      List.count '{' (funcBody (str "int f() \x7b") m) =
        List.count '}' (funcBody (str "int f() \x7b") m)) := by
  decide

/-- Witness for C2 at a concrete input: on `int f() { return 0; }` the
closing-brace scan succeeds at offset 21 and the delimited body is
brace-balanced. -/
theorem claim2_function_record_invariants_witness :
    List.count '{' (pySlice (str "int f() \x7b return 0; \x7d") 0 21) =
      List.count '}' (pySlice (str "int f() \x7b return 0; \x7d") 0 21) :=
  claim2_function_record_invariants.2.1 (str "int f() \x7b return 0; \x7d") 0 21 (by decide)

/-- C8 (amended): for every input from which the extractor finds no
functions, `_calculate_file_complexity` reports average, maximum and
total as zero and raises no error, while the `complex_functions` count is
absent from the returned dictionary rather than reported as zero. -/
theorem claim8_zero_functions (content : List Char)
    (h : extractFunctions content = []) :
    calcFileComplexity content =
      { total_functions := 0, average_complexity := 0, max_complexity := 0,
        complex_functions := none } := by
  simp [calcFileComplexity, h]

/-- Counterexample to C8 as stated: the empty file has zero functions,
yet the aggregate does not report the complex-function count as zero —
the zero-function branch omits that key entirely. -/
theorem claim8_counterexample :
    extractFunctions (str "") = [] ∧
    (calcFileComplexity (str "")).complex_functions ≠ some 0 := by
  constructor
  · decide
  · decide

/-- Witness for C8 at a concrete input with no function definitions. -/
theorem claim8_zero_functions_witness :
    calcFileComplexity (str "x = 1;") =
      { total_functions := 0, average_complexity := 0, max_complexity := 0,
        complex_functions := none } :=
  claim8_zero_functions (str "x = 1;") (by decide)

/-- A single-character literal match pins down the subject character at
the match position. -/
theorem litAt_single_get {c : Char} {s : List Char} {i j : Nat}
    (h : j ∈ litAt [c] s i) : s.get? i = some c ∧ j = i + 1 := by
  obtain ⟨rfl, hp⟩ := litAt_mem h
  obtain ⟨t, ht⟩ := List.isPrefixOf_iff_prefix.mp hp
  have h0 : (s.drop i).get? 0 = some c := by rw [← ht]; rfl
  rw [List.get?_drop] at h0
  simpa using h0

/-- A subject character strictly inside a slice's range belongs to the
slice. -/
theorem mem_pySlice {s : List Char} {a b k : Nat} {c : Char}
    (ha : a ≤ k) (hb : k < b) (hc : s.get? k = some c) : c ∈ pySlice s a b := by
  have h1 : (pySlice s a b).get? (k - a) = some c := by
    unfold pySlice
    rw [List.get?_take (by omega), List.get?_drop,
      show a + (k - a) = k from by omega]
    exact hc
  exact List.get?_mem h1

/-- The optional parenthesis group moves forward within the subject, and
when it matched, an opening parenthesis sits at its start offset. -/
theorem macroParenOpt_spec {s : List Char} {j : Nat} {pj : Option Nat × Nat}
    (hj : j ≤ s.length) (h : pj ∈ macroParenOpt s j) :
    j ≤ pj.2 ∧ pj.2 ≤ s.length ∧
      (∀ pe, pj.1 = some pe → s.get? j = some '(') := by
  simp only [macroParenOpt, List.mem_append, List.mem_map, List.mem_flatMap,
    List.mem_singleton] at h
  rcases h with ⟨pe, hpe, rfl⟩ | rfl
  · obtain ⟨a, ha, b, hb, hpe2⟩ := hpe
    have hga := litAt_single_get (show a ∈ litAt ['('] s j from ha)
    obtain ⟨ha1, ha2⟩ := litAt_mem_le hj ha
    obtain ⟨h1, h2⟩ := starRun_mem_le ha2 hb
    obtain ⟨h3, h4⟩ := litAt_mem_le h2 hpe2
    refine ⟨by dsimp only; omega, by dsimp only; omega, ?_⟩
    intro pe2 hpe3
    simpa using hga.1
  · exact ⟨le_refl j, hj, fun pe hpe => by simp at hpe⟩

/-- A macro-pattern candidate starts at the anchor, its offsets are
ordered and bounded, and when the parenthesis group matched, an opening
parenthesis directly follows the macro name. -/
theorem macroCandidates_spec {s : List Char} {i : Nat} {m : MacroMatch}
    (hi : i ≤ s.length) (h : m ∈ macroCandidates s i) :
    m.start = i ∧ i ≤ m.nameE ∧ m.nameE < m.valS ∧ m.valS ≤ m.valE ∧
      m.valE ≤ s.length ∧
      (∀ pe, m.parenE = some pe → s.get? m.nameE = some '(') := by
  simp only [macroCandidates, List.mem_flatMap, List.mem_map] at h
  obtain ⟨j1, hj1, j2, hj2, j3, hj3, pj, hpj, j5, hj5, rfl⟩ := h
  obtain ⟨h1a, h1b⟩ := litAt_mem_le hi hj1
  obtain ⟨h2a, h2b⟩ := plusRun_mem_le h1b hj2
  obtain ⟨h3a, h3b⟩ := plusRun_mem_le h2b hj3
  obtain ⟨h4a, h4b, h4c⟩ := macroParenOpt_spec h3b hpj
  have h5 := plusRun_mem hj5
  have h5b := (plusRun_mem_le h4b hj5).2
  have hrun := runLen_le (fun c => !(c = '\n')) s j5
  refine ⟨rfl, ?_, ?_, ?_, ?_, ?_⟩ <;> try (dsimp only; omega)
  intro pe hpe
  dsimp only at hpe ⊢
  -- the paren group matched: the character right after the name is '('
  rcases hpj2 : pj.1 with _ | pe2
  · rw [hpj2] at hpe; simp at hpe
  · exact h4c pe2 hpj2

/-- Every reported macro match is a candidate at some offset within the
file. -/
theorem macroMatches_mem {content : List Char} {m : MacroMatch}
    (h : m ∈ macroMatches content) :
    ∃ k, k ≤ content.length ∧ m ∈ macroCandidates content k := by
  obtain ⟨k, hk, htry⟩ := scanAll_mem h
  exact ⟨k, hk, head?_mem htry⟩

/-- C9 (amended): an extracted macro's function-like flag is positive
exactly when the matched directive text contains a parenthesis anywhere
(`'(' in match.group(0)`); in particular it is positive whenever a
parenthesis directly follows the macro name (the optional group matched),
but also — contrary to the claim as stated — when the only parenthesis
sits in the replacement text after whitespace. -/
theorem claim9_function_like_flag :
    (∀ content m, m ∈ macroMatches content →
      ((toMacroRecord content m).is_function_like = true ↔
        '(' ∈ pySlice content m.start m.valE)) ∧
    (∀ content m, m ∈ macroMatches content → m.parenE.isSome = true →
      (toMacroRecord content m).is_function_like = true) := by
  constructor
  · intro content m _
    simp only [toMacroRecord]
    exact List.elem_iff
  · intro content m hm hsome
    obtain ⟨k, hk, hcand⟩ := macroMatches_mem hm
    obtain ⟨hs, h1, h2, h3, h4, hparen⟩ := macroCandidates_spec hk hcand
    obtain ⟨pe, hpe⟩ := Option.isSome_iff_exists.mp hsome
    have hget := hparen pe hpe
    simp only [toMacroRecord]
    have hmem : '(' ∈ pySlice content m.start m.valE := by
      subst hs
      exact mem_pySlice h1 (by omega) hget
    exact List.elem_iff.mpr hmem

/-- Counterexample to C9 as stated: in `#define MAX (x)` the character
directly following the macro name `MAX` is a blank, not a parenthesis,
yet the extracted record's function-like flag is true (the parenthesis
sits in the replacement text, and `'(' in match.group(0)` sees it). -/
theorem claim9_counterexample :
    ∃ m, macroMatches (str "#define MAX (x)") = [m] ∧ m.parenE = none ∧
      (str "#define MAX (x)").get? m.nameE = some ' ' ∧
      (toMacroRecord (str "#define MAX (x)") m).is_function_like = true := by
  refine ⟨⟨0, 8, 11, none, 12, 15⟩, by decide, rfl, by decide, by decide⟩

/-- Witness for C9 at a concrete input: in `#define SQ(x) x*x` the
parameter parenthesis directly follows the name and the flag is true. -/
theorem claim9_function_like_flag_witness :
    (toMacroRecord (str "#define SQ(x) x*x") ⟨0, 8, 10, some 13, 14, 17⟩).is_function_like = true :=
  claim9_function_like_flag.2 (str "#define SQ(x) x*x") ⟨0, 8, 10, some 13, 14, 17⟩
    (by decide) (by decide)
